import Mathlib

/-!
# Verification of the rest-api-mcp request-execution engine

A shallow embedding, in Lean 4, of the HTTP request-execution engine found in
`client/client.go` of the `lexandro/rest-api-mcp` repository, together with a
model of the earlier monolithic `ExecuteRequest` (kept in the repository's
history) that the current code was refactored from.

Modelling conventions:

* Go strings are Lean `String`s; the byte-level operations the engine performs
  (`strings.HasPrefix`, `strings.TrimRight`, splitting on `?`, `&`, `=`) are
  reproduced as structural functions on `String.data`.
* `net/url.Parse` is modelled at the granularity the engine observes: it fails
  exactly on URLs containing an ASCII control character (Go rejects those with
  "net/url: invalid control character in URL"), and otherwise splits the string
  at the first `?` into a pre-query part and a raw query.  Percent-escapes and
  fragments are outside the abstraction: strings are taken as already escaped.
* `url.Values` (a map from names to value lists) is an association list with
  unique keys, built and updated exactly as Go's `Add`/`Set` do; `Encode`'s
  `sort.Strings` over the keys is modelled by an insertion sort under the
  byte-wise lexicographic order on strings.
* The transport (`http.Client.Do`) and the response body stream are an oracle:
  each attempt index is mapped to an `AttemptOutcome` — either a transport
  error, or a response carrying a status, a declared content length, the byte
  stream available from the wire, and whether draining that stream fails.
* Machine integers (`int`, `int64`) hold sizes and counts that the config
  domain keeps non-negative and far below overflow, so they are modelled as
  `Nat` (and `Int` where Go uses a signed sentinel, e.g. `ContentLength`).
-/

namespace RestApiMcp

/-! ## Byte-level string helpers (Go `strings` package) -/

/-- An ASCII control character.  `net/url.Parse` rejects URLs containing one
("net/url: invalid control character in URL"); this is the failure mode of
URL parsing that the engine can actually hit and the one we model. -/
def isCtlChar (c : Char) : Bool := c.toNat < 0x20 || c.toNat == 0x7f

/-- `strings.TrimRight(s, "/")`: remove every trailing slash. -/
def trimRightSlashes (s : String) : String :=
  ⟨(s.data.reverse.dropWhile (· = '/')).reverse⟩

/-- `strings.HasPrefix(s, "/")`: the string starts with a slash. -/
def startsWithSlash (s : String) : Bool :=
  match s.data with
  | '/' :: _ => true
  | _ => false

/-- Split a character list at the first occurrence of `sep`; the separator is
dropped.  `none` when `sep` does not occur. -/
def splitFirst (sep : Char) : List Char → Option (List Char × List Char)
  | [] => none
  | c :: cs =>
    if c = sep then some ([], cs)
    else (splitFirst sep cs).map (fun p => (c :: p.1, p.2))

/-- `strings.Split` on a single-character separator (always at least one
segment, empty segments preserved). -/
def splitEvery (sep : Char) : List Char → List (List Char)
  | [] => [[]]
  | c :: cs =>
    if c = sep then [] :: splitEvery sep cs
    else
      match splitEvery sep cs with
      | [] => [[c]]
      | g :: gs => (c :: g) :: gs

/-! ## URL parsing (`net/url`), at the engine's granularity -/

/-- The parse of a URL at the granularity the engine manipulates: everything
before the first `?`, and the raw query after it.  (`url.URL.String`
re-assembles exactly these two parts; the engine never touches scheme, host or
path individually.) -/
structure ParsedURL where
  preQuery : String
  rawQuery : String
deriving DecidableEq, Repr

/-- Model of `url.Parse`: fails exactly on control characters, otherwise
splits at the first `?`. -/
def urlParse (s : String) : Option ParsedURL :=
  if s.data.any isCtlChar then none
  else
    match splitFirst '?' s.data with
    | none => some ⟨s, ""⟩
    | some (pre, q) => some ⟨⟨pre⟩, ⟨q⟩⟩

/-- Model of `url.URL.String` for a URL produced by `urlParse`: re-attach the
raw query when present. -/
def urlString (u : ParsedURL) : String :=
  if u.rawQuery = "" then u.preQuery else u.preQuery ++ "?" ++ u.rawQuery

/-! ## `url.Values`: query-string maps -/

/-- The key/value pairs of a raw query: split on `&`, drop empty segments,
split each segment at the first `=` (no `=` means empty value).  This is
`url.ParseQuery` minus unescaping (strings are taken as already escaped). -/
def parseQueryPairs (raw : String) : List (String × String) :=
  ((splitEvery '&' raw.data).filter (· ≠ [])).map fun seg =>
    match splitFirst '=' seg with
    | none => (⟨seg⟩, "")
    | some (k, v) => (⟨k⟩, ⟨v⟩)

/-- `url.Values`: a map from parameter name to list of values, with unique
keys, as an association list. -/
abbrev Values := List (String × List String)

/-- `url.Values.Add`: append a value under a key, creating the key if new. -/
def valuesAdd (vs : Values) (k v : String) : Values :=
  match vs with
  | [] => [(k, [v])]
  | (k', ws) :: rest =>
    if k' = k then (k', ws ++ [v]) :: rest else (k', ws) :: valuesAdd rest k v

/-- `url.URL.Query()`: the `Values` of a raw query string, built by `Add`. -/
def valuesOf (raw : String) : Values :=
  (parseQueryPairs raw).foldl (fun vs kv => valuesAdd vs kv.1 kv.2) []

/-- `url.Values.Set`: replace every value of `k` with the single value `v`
(map assignment `vs[k] = []string{v}` in Go). -/
def valuesSet (vs : Values) (k v : String) : Values :=
  if vs.any (fun p => p.1 = k) then
    vs.map (fun p => if p.1 = k then (k, [v]) else p)
  else vs ++ [(k, [v])]

/-- Look up a key in a `Values` map. -/
def valuesGet (vs : Values) (k : String) : Option (List String) :=
  (vs.find? (fun p => p.1 = k)).map Prod.snd

/-! ## Sorting the query keys (`sort.Strings` inside `Values.Encode`) -/

/-- Byte-wise lexicographic comparison of character lists (Go's `string <`). -/
def charListLe : List Char → List Char → Bool
  | [], _ => true
  | _ :: _, [] => false
  | a :: as, b :: bs =>
    if a.toNat < b.toNat then true
    else if b.toNat < a.toNat then false
    else charListLe as bs

/-- Go's `s <= t` on strings. -/
def strLeB (a b : String) : Bool := charListLe a.data b.data

/-- Insert one keyed entry into a key-sorted `Values` list. -/
def orderedInsertKey (p : String × List String) : Values → Values
  | [] => [p]
  | q :: qs => if strLeB p.1 q.1 then p :: q :: qs else q :: orderedInsertKey p qs

/-- Sort a `Values` list by key: models `sort.Strings(keys)` inside
`url.Values.Encode` (keys are unique, so any correct sort agrees). -/
def sortValues : Values → Values
  | [] => []
  | p :: ps => orderedInsertKey p (sortValues ps)

/-- The `name=value` pairs in the order `url.Values.Encode` emits them:
keys sorted, each key's values in stored order. -/
def encodedPairs (vs : Values) : List (String × String) :=
  (sortValues vs).flatMap (fun p => p.2.map (fun v => (p.1, v)))

/-- Join with `&` (the serialization step of `Encode`). -/
def joinAmp : List String → String
  | [] => ""
  | [s] => s
  | s :: rest => s ++ "&" ++ joinAmp rest

/-- `url.Values.Encode`: serialized query, keys sorted. -/
def valuesEncode (vs : Values) : String :=
  joinAmp ((encodedPairs vs).map (fun kv => kv.1 ++ "=" ++ kv.2))

/-! ## The engine's data model (`client/client.go`) -/

/-- The error classes the engine can surface (`client.go` wraps each in
`fmt.Errorf`; we keep the distinguishing data). -/
inductive EngineError where
  /-- "parsing URL %s": `url.Parse` failed in `buildRequestURL`. -/
  | urlParseErr (u : String)
  /-- "creating request %s %s": `http.NewRequestWithContext` failed. -/
  | reqConstruction (meth u : String)
  /-- "executing %s %s": the transport round trip failed. -/
  | network (meth u : String) (msg : String)
  /-- "reading response body": draining the received stream failed. -/
  | bodyRead
deriving DecidableEq, Repr

/-- `client.RequestParams` (client.go lines 34–43). -/
structure RequestParams where
  method : String
  url : String
  headers : List (String × String)
  body : String
  queryParams : List (String × String)
  timeout : Nat
  followRedirects : Bool
  includeHeaders : Bool
deriving DecidableEq, Repr

/-- `client.Config` (client.go lines 14–23).  `ProxyURL` and `InsecureTLS`
only configure the transport and never influence the engine's control flow,
so they are not modelled. -/
structure Config where
  baseURL : String
  defaultHeaders : List (String × String)
  timeout : Nat
  maxResponseSize : Int
  retryCount : Nat
  retryDelay : Nat
deriving DecidableEq, Repr

/-- `client.Client` (client.go lines 25–32). -/
structure Client where
  baseURL : String
  defaultHeaders : List (String × String)
  timeout : Nat
  maxResponseSize : Nat
  retryCount : Nat
  retryDelay : Nat
deriving DecidableEq, Repr

/-- `client.NewClient` (client.go lines 67–99): the size cap defaults to
51200 when not positive. -/
def NewClient (config : Config) : Client :=
  { baseURL := config.baseURL
    defaultHeaders := config.defaultHeaders
    timeout := config.timeout
    maxResponseSize :=
      if config.maxResponseSize ≤ 0 then 51200 else config.maxResponseSize.toNat
    retryCount := config.retryCount
    retryDelay := config.retryDelay }

/-! ## URL construction (`buildRequestURL`, client.go lines 101–121) -/

/-- Lines 102–105: prefix a relative URL with the trimmed base URL. -/
def resolveURL (baseURL : String) (params : RequestParams) : String :=
  if startsWithSlash params.url && baseURL != "" then
    trimRightSlashes baseURL ++ params.url
  else params.url

/-- Lines 112–115: fold `query.Set` over the supplied query parameters,
starting from the URL's existing query. -/
def mergedQuery (pu : ParsedURL) (qp : List (String × String)) : Values :=
  qp.foldl (fun q kv => valuesSet q kv.1 kv.2) (valuesOf pu.rawQuery)

/-- `buildRequestURL` (client.go lines 101–121). -/
def buildRequestURL (baseURL : String) (params : RequestParams) :
    Except EngineError String :=
  let requestURL := resolveURL baseURL params
  if params.queryParams.isEmpty then .ok requestURL
  else
    match urlParse requestURL with
    | none => .error (.urlParseErr requestURL)
    | some pu =>
      .ok (urlString { pu with rawQuery := valuesEncode (mergedQuery pu params.queryParams) })

/-- The last binding of `k` in an association list (Go map semantics: the
last write to a key wins; on an actual Go map keys are unique and this is the
only binding). -/
def lookupLast (m : List (String × String)) (k : String) : Option String :=
  match m with
  | [] => none
  | (k', v) :: rest =>
    match lookupLast rest k with
    | some w => some w
    | none => if k' = k then some v else none

/-- The bulk effect the spec ascribes to setting the supplied parameters into
the existing query: every existing entry whose name is also supplied is
overwritten with the supplied value (the last binding when the supplied list
repeats a name), every other existing entry is kept, and each supplied
parameter with a new name is added. -/
def overrideValues (existing : Values) (supplied : List (String × String)) : Values :=
  existing.map (fun p =>
    match lookupLast supplied p.1 with
    | some v => (p.1, [v])
    | none => p) ++
  (supplied.filter (fun kv => !existing.any (fun p => p.1 = kv.1))).map
    (fun kv => (kv.1, [kv.2]))

/-- The URL construction as §4.1 of the spec words it: a URL starting with
`/` is prefixed with the base URL (trailing slashes removed) when one is
configured, an absolute URL is used verbatim; when query parameters are
supplied the URL is parsed (failure is a URL-parse error), each parameter is
set into the existing query, overwriting any same-named one, and the URL is
re-serialized with the query sorted by name. -/
def buildRequestURLSpec (baseURL : String) (params : RequestParams) :
    Except EngineError String :=
  let resolved := resolveURL baseURL params
  if params.queryParams.isEmpty then .ok resolved
  else
    match urlParse resolved with
    | none => .error (.urlParseErr resolved)
    | some pu =>
      .ok (urlString { pu with
        rawQuery := valuesEncode (overrideValues (valuesOf pu.rawQuery) params.queryParams) })

/-- The key order used in C6's sortedness statements: `strLeB` on the keys of
two `Values` entries. -/
def keyLe (a b : String × List String) : Prop := strLeB a.1 b.1 = true

/-! ## Header resolution (client.go lines 154–159)

Go's `http.Header.Set` canonicalizes the field name via
`textproto.CanonicalMIMEHeaderKey` and then overwrites the entry, so the
outgoing header set is a map from canonical names to the last value written.
We model a header map as a function from names to optional values. -/

/-- A valid header-field character (`textproto.validHeaderFieldByte`):
printable ASCII that is not a separator. -/
def isTokenChar (c : Char) : Bool :=
  0x20 < c.toNat && c.toNat < 0x7f &&
    !("()<>@,;:\\\"/[]?=\x7b\x7d \t".data.contains c)

/-- The case-folding pass of `textproto.CanonicalMIMEHeaderKey`: upper-case
the first character and every character following a `-`, lower-case the
rest. -/
def canonChars : Bool → List Char → List Char
  | _, [] => []
  | upper, c :: cs =>
    (if upper then c.toUpper else c.toLower) :: canonChars (c = '-') cs

/-- `textproto.CanonicalMIMEHeaderKey`: canonicalize a valid field name,
return an invalid one unchanged. -/
def canonicalMIMEHeaderKey (s : String) : String :=
  if s.data.all isTokenChar then ⟨canonChars true s.data⟩ else s

/-- An outgoing header set: canonical name to value. -/
abbrev Header := String → Option String

def emptyHeader : Header := fun _ => none

/-- `req.Header.Set(k, v)`. -/
def headerSet (h : Header) (k v : String) : Header :=
  fun n => if n = canonicalMIMEHeaderKey k then some v else h n

/-- One `for key, value := range m { req.Header.Set(key, value) }` loop. -/
def headerSetAll (h : Header) (m : List (String × String)) : Header :=
  m.foldl (fun acc kv => headerSet acc kv.1 kv.2) h

/-- The outgoing header set of one attempt (client.go lines 154–159):
defaults first, then the per-call headers on top. -/
def attemptHeaders (defaultHeaders perCall : List (String × String)) : Header :=
  headerSetAll (headerSetAll emptyHeader defaultHeaders) perCall

/-- An association list with its keys canonicalized. -/
def canonKeys (m : List (String × String)) : List (String × String) :=
  m.map (fun kv => (canonicalMIMEHeaderKey kv.1, kv.2))

/-! ## The transport oracle -/

/-- What the wire delivers for one attempt's response: the status, the
declared `ContentLength` (Go uses `-1` for unknown), the bytes available from
the body stream, whether draining the stream fails partway, and the response
headers. -/
structure TransportResp where
  statusCode : Nat
  contentLength : Int
  stream : List UInt8
  readFails : Bool
  headers : List (String × String)
deriving DecidableEq, Repr

/-- The outcome of one `httpClient.Do` round trip: a transport error (DNS,
connect, TLS, timeout, …) or a received response. -/
inductive AttemptOutcome where
  | transportErr (msg : String)
  | response (r : TransportResp)
deriving DecidableEq, Repr

/-! ## Bounded body capture (`readResponseBody`, client.go lines 123–141) -/

/-- `readResponseBody` (client.go lines 123–141).
`io.ReadAll(io.LimitReader(resp.Body, max+1))` reads
`min (stream.length) (max+1)` bytes — that is, `stream.take (max+1)`;
a read failure surfaces as an error, otherwise the truncation flag, the kept
body and the best-effort original size are computed. -/
def readResponseBody (stream : List UInt8) (readFails : Bool)
    (contentLength : Int) (maxResponseSize : Nat) :
    Except EngineError (List UInt8 × Bool × Int) :=
  if readFails then .error .bodyRead
  else
    let body := stream.take (maxResponseSize + 1)
    if body.length > maxResponseSize then
      let originalSize := if contentLength > 0 then contentLength else (body.length : Int)
      .ok (body.take maxResponseSize, true, originalSize)
    else
      .ok (body, false, 0)

/-! ## One attempt (`doSingleAttempt`, client.go lines 143–183) -/

/-- `client.Response` (client.go lines 45–53), the fields the engine's
control flow and the claims touch.  `StatusText` is a pure table lookup on
the status code and `Duration` is wall-clock time; neither influences any
control flow. -/
structure Response where
  statusCode : Nat
  headers : List (String × String)
  body : List UInt8
  truncated : Bool
  originalSize : Int
deriving DecidableEq, Repr

/-- Whether `http.NewRequestWithContext` succeeds: the method must be a valid
HTTP token and the URL must parse (`net/http` re-parses it with
`url.Parse`). -/
def newRequestOk (meth requestURL : String) : Bool :=
  (!meth.isEmpty && meth.data.all isTokenChar) && (urlParse requestURL).isSome

/-- `doSingleAttempt` (client.go lines 143–183): build the request, run the
round trip against the oracle, capture the body. -/
def doSingleAttempt (c : Client) (meth requestURL : String)
    (outcome : AttemptOutcome) : Except EngineError Response :=
  if !newRequestOk meth requestURL then .error (.reqConstruction meth requestURL)
  else
    match outcome with
    | .transportErr msg => .error (.network meth requestURL msg)
    | .response r =>
      match readResponseBody r.stream r.readFails r.contentLength c.maxResponseSize with
      | .error e => .error e
      | .ok (body, truncated, originalSize) =>
        .ok { statusCode := r.statusCode
              headers := r.headers
              body := body
              truncated := truncated
              originalSize := originalSize }

/-! ## The retry loop (`ExecuteRequest`, client.go lines 185–246)

The loop is modelled with the remaining iteration count as fuel
(`attempt + remaining = maxAttempts` throughout, so Go's
`attempt < maxAttempts-1` is `remaining > 0` after peeling one iteration).
Each call returns the Go `(response, error)` pair — `none` standing for Go's
`(nil, nil)`, which lines 242–245 can only produce when the loop body never
ran — together with the number of attempts performed. -/

def execLoop (c : Client) (meth requestURL : String)
    (outcomes : Nat → AttemptOutcome) :
    Nat → Nat → Option EngineError → Option Response →
    Option (Except EngineError Response) × Nat
  | _, 0, lastErr, lastResponse =>
    (match lastResponse with
     | some r => some (.ok r)
     | none => lastErr.map .error, 0)
  | attempt, remaining + 1, lastErr, lastResponse =>
    match doSingleAttempt c meth requestURL (outcomes attempt) with
    | .error e =>
      if remaining > 0 then
        let next := execLoop c meth requestURL outcomes (attempt + 1) remaining (some e) lastResponse
        (next.1, next.2 + 1)
      else (some (.error e), 1)
    | .ok resp =>
      if 400 ≤ resp.statusCode && resp.statusCode < 500 then (some (.ok resp), 1)
      else if 500 ≤ resp.statusCode && remaining > 0 then
        let next := execLoop c meth requestURL outcomes (attempt + 1) remaining lastErr (some resp)
        (next.1, next.2 + 1)
      else (some (.ok resp), 1)

/-- `ExecuteRequest` (client.go lines 185–246).  The redirect-policy toggle
(lines 198–210) configures the transport oracle and the timeout context
(lines 191–196) is modelled separately (see `requestCtxDeadline`): neither
changes which branch of the control flow below runs. -/
def ExecuteRequest (c : Client) (params : RequestParams)
    (outcomes : Nat → AttemptOutcome) :
    Option (Except EngineError Response) × Nat :=
  match buildRequestURL c.baseURL params with
  | .error e => (some (.error e), 0)
  | .ok requestURL =>
    execLoop c params.method requestURL outcomes 0 (c.retryCount + 1) none none

/-! ## The earlier monolithic engine (repository history, `part_000`)

Lines 102–118 of the monolith are verbatim the URL construction that became
`buildRequestURL`, and lines 146–203 are verbatim the attempt body that
became `doSingleAttempt` + `readResponseBody`, with one difference: the
monolith returns a request-construction failure immediately (line 153),
while the refactored engine lets it flow into the generic retry branch. -/

def execLoopOld (c : Client) (meth requestURL : String)
    (outcomes : Nat → AttemptOutcome) :
    Nat → Nat → Option EngineError → Option Response →
    Option (Except EngineError Response) × Nat
  | _, 0, lastErr, lastResponse =>
    (match lastResponse with
     | some r => some (.ok r)
     | none => lastErr.map .error, 0)
  | attempt, remaining + 1, lastErr, lastResponse =>
    if !newRequestOk meth requestURL then
      (some (.error (.reqConstruction meth requestURL)), 1)
    else
      match outcomes attempt with
      | .transportErr msg =>
        if remaining > 0 then
          let next := execLoopOld c meth requestURL outcomes (attempt + 1) remaining
            (some (.network meth requestURL msg)) lastResponse
          (next.1, next.2 + 1)
        else (some (.error (.network meth requestURL msg)), 1)
      | .response r =>
        match readResponseBody r.stream r.readFails r.contentLength c.maxResponseSize with
        | .error e =>
          if remaining > 0 then
            let next := execLoopOld c meth requestURL outcomes (attempt + 1) remaining
              (some e) lastResponse
            (next.1, next.2 + 1)
          else (some (.error e), 1)
        | .ok (body, truncated, originalSize) =>
          let resp : Response :=
            { statusCode := r.statusCode
              headers := r.headers
              body := body
              truncated := truncated
              originalSize := originalSize }
          if 400 ≤ resp.statusCode && resp.statusCode < 500 then (some (.ok resp), 1)
          else if 500 ≤ resp.statusCode && remaining > 0 then
            let next := execLoopOld c meth requestURL outcomes (attempt + 1) remaining
              lastErr (some resp)
            (next.1, next.2 + 1)
          else (some (.ok resp), 1)

/-- The monolithic `ExecuteRequest` of `part_000` (lines 101–221). -/
def ExecuteRequestOld (c : Client) (params : RequestParams)
    (outcomes : Nat → AttemptOutcome) :
    Option (Except EngineError Response) × Nat :=
  match buildRequestURL c.baseURL params with
  | .error e => (some (.error e), 0)
  | .ok requestURL =>
    execLoopOld c params.method requestURL outcomes 0 (c.retryCount + 1) none none

/-! ## Timeout scoping (client.go lines 191–196 and 216–221)

`context.WithTimeout(ctx, params.Timeout)` is evaluated once, before the
retry loop; every `doSingleAttempt` call on line 221 receives that same
`requestCtx`.  A context deadline is an absolute instant: the new deadline is
`now + timeout`, capped by the parent's deadline when the parent has an
earlier one.  Time is modelled as `Nat` instants. -/

/-- The deadline of `requestCtx` (client.go lines 191–196), computed once at
call start. -/
def requestCtxDeadline (callStart : Nat) (parentDeadline : Option Nat)
    (timeout : Nat) : Option Nat :=
  if timeout > 0 then
    some (match parentDeadline with
          | some d => min d (callStart + timeout)
          | none => callStart + timeout)
  else parentDeadline

/-- The instant attempt `n` starts: each attempt runs for its duration, and
every attempt after the first is preceded by the `retryDelay` sleep
(client.go lines 216–219). -/
def attemptStart (callStart retryDelay : Nat) (durations : Nat → Nat) :
    Nat → Nat
  | 0 => callStart
  | n + 1 => attemptStart callStart retryDelay durations n + durations n + retryDelay

/-- The context deadline under which attempt `n` runs in the code: line 221
passes the one `requestCtx` built on lines 191–196 to every attempt, so the
deadline does not depend on `n`. -/
def attemptCtxDeadline (callStart : Nat) (parentDeadline : Option Nat)
    (timeout : Nat) (_n : Nat) : Option Nat :=
  requestCtxDeadline callStart parentDeadline timeout

/-- Modelled from the spec: "the next attempt gets a fresh deadline" — a
per-attempt deadline would be established at each attempt's own start
instant.  This is the reference the code is compared against; it does not
correspond to anything in `client.go`. -/
def freshAttemptDeadline (callStart retryDelay timeout : Nat)
    (durations : Nat → Nat) (n : Nat) : Option Nat :=
  if timeout > 0 then
    some (attemptStart callStart retryDelay durations n + timeout)
  else none

/-! ## Retry-loop lemmas -/

/-- One-step unfolding of `execLoop` at nonzero fuel. -/
lemma execLoop_succ (c : Client) (meth u : String)
    (outcomes : Nat → AttemptOutcome) (a r : Nat) (le : Option EngineError)
    (lr : Option Response) :
    execLoop c meth u outcomes a (r + 1) le lr =
      match doSingleAttempt c meth u (outcomes a) with
      | .error e =>
        if r > 0 then
          let next := execLoop c meth u outcomes (a + 1) r (some e) lr
          (next.1, next.2 + 1)
        else (some (.error e), 1)
      | .ok resp =>
        if 400 ≤ resp.statusCode && resp.statusCode < 500 then (some (.ok resp), 1)
        else if 500 ≤ resp.statusCode && r > 0 then
          let next := execLoop c meth u outcomes (a + 1) r le (some resp)
          (next.1, next.2 + 1)
        else (some (.ok resp), 1) := rfl

/-- One-step unfolding of `execLoopOld` at nonzero fuel. -/
lemma execLoopOld_succ (c : Client) (meth u : String)
    (outcomes : Nat → AttemptOutcome) (a r : Nat) (le : Option EngineError)
    (lr : Option Response) :
    execLoopOld c meth u outcomes a (r + 1) le lr =
      if !newRequestOk meth u then
        (some (.error (.reqConstruction meth u)), 1)
      else
        match outcomes a with
        | .transportErr msg =>
          if r > 0 then
            let next := execLoopOld c meth u outcomes (a + 1) r
              (some (.network meth u msg)) lr
            (next.1, next.2 + 1)
          else (some (.error (.network meth u msg)), 1)
        | .response tr =>
          match readResponseBody tr.stream tr.readFails tr.contentLength c.maxResponseSize with
          | .error e =>
            if r > 0 then
              let next := execLoopOld c meth u outcomes (a + 1) r (some e) lr
              (next.1, next.2 + 1)
            else (some (.error e), 1)
          | .ok (body, truncated, originalSize) =>
            let resp : Response :=
              { statusCode := tr.statusCode
                headers := tr.headers
                body := body
                truncated := truncated
                originalSize := originalSize }
            if 400 ≤ resp.statusCode && resp.statusCode < 500 then (some (.ok resp), 1)
            else if 500 ≤ resp.statusCode && r > 0 then
              let next := execLoopOld c meth u outcomes (a + 1) r le (some resp)
              (next.1, next.2 + 1)
            else (some (.ok resp), 1) := rfl

/-- When every attempt in the window fails, the loop consumes every remaining
attempt and surfaces the final attempt's error. -/
lemma execLoop_all_errors (c : Client) (meth u : String)
    (outcomes : Nat → AttemptOutcome) (err : Nat → EngineError) :
    ∀ r a (le : Option EngineError),
      (∀ i, a ≤ i → i ≤ a + r → doSingleAttempt c meth u (outcomes i) = .error (err i)) →
      execLoop c meth u outcomes a (r + 1) le none =
        (some (.error (err (a + r))), r + 1) := by
  intro r
  induction r with
  | zero =>
    intro a le h
    have h0 := h a (Nat.le_refl a) (by omega)
    rw [execLoop_succ, h0]
    simp
  | succ r ih =>
    intro a le h
    have h0 := h a (Nat.le_refl a) (by omega)
    have hrec := ih (a + 1) (some (err a)) (fun i hi1 hi2 => h i (by omega) (by omega))
    have hidx : a + 1 + r = a + (r + 1) := by omega
    rw [hidx] at hrec
    rw [execLoop_succ, h0]
    simp [hrec]

/-- When every attempt in the window yields a response with status at least
500, the loop consumes every remaining attempt and returns the final
attempt's response. -/
lemma execLoop_all_5xx (c : Client) (meth u : String)
    (outcomes : Nat → AttemptOutcome) (resp : Nat → Response) :
    ∀ r a (le : Option EngineError) (lr : Option Response),
      (∀ i, a ≤ i → i ≤ a + r →
        doSingleAttempt c meth u (outcomes i) = .ok (resp i) ∧ 500 ≤ (resp i).statusCode) →
      execLoop c meth u outcomes a (r + 1) le lr =
        (some (.ok (resp (a + r))), r + 1) := by
  intro r
  induction r with
  | zero =>
    intro a le lr h
    have h0 := h a (Nat.le_refl a) (by omega)
    rw [execLoop_succ, h0.1]
    simp [show ¬(resp a).statusCode < 500 by omega]
  | succ r ih =>
    intro a le lr h
    have h0 := h a (Nat.le_refl a) (by omega)
    have hrec := ih (a + 1) le (some (resp a)) (fun i hi1 hi2 => h i (by omega) (by omega))
    have hidx : a + 1 + r = a + (r + 1) := by omega
    rw [hidx] at hrec
    rw [execLoop_succ, h0.1]
    simp [h0.2, show ¬(resp a).statusCode < 500 by omega, hrec]

/-- An attempt that yields a response with status below 500 ends the loop at
once with that response. -/
lemma execLoop_first_return (c : Client) (meth u : String)
    (outcomes : Nat → AttemptOutcome) (r a : Nat) (le : Option EngineError)
    (lr : Option Response) (p : Response)
    (h : doSingleAttempt c meth u (outcomes a) = .ok p)
    (hs : p.statusCode < 500) :
    execLoop c meth u outcomes a (r + 1) le lr = (some (.ok p), 1) := by
  rw [execLoop_succ, h]
  by_cases h4 : 400 ≤ p.statusCode
  · simp [h4, hs]
  · simp [show ¬500 ≤ p.statusCode by omega, h4]

/-- When request construction fails, every iteration of the refactored loop
fails with the same construction error, which is finally surfaced. -/
lemma execLoop_construct_fail (c : Client) (meth u : String)
    (outcomes : Nat → AttemptOutcome) (hno : newRequestOk meth u = false) :
    ∀ r a (le : Option EngineError) (lr : Option Response),
      (execLoop c meth u outcomes a (r + 1) le lr).1 =
        some (.error (.reqConstruction meth u)) := by
  have hd : ∀ i, doSingleAttempt c meth u (outcomes i) =
      .error (.reqConstruction meth u) := by
    intro i; simp [doSingleAttempt, hno]
  intro r
  induction r with
  | zero =>
    intro a le lr
    rw [execLoop_succ, hd a]
    simp
  | succ r ih =>
    intro a le lr
    rw [execLoop_succ, hd a]
    simp [ih]

/-- When request construction succeeds, the refactored loop and the
monolithic loop agree step by step. -/
lemma execLoop_eq_old (c : Client) (meth u : String)
    (outcomes : Nat → AttemptOutcome) (hok : newRequestOk meth u = true) :
    ∀ r a (le : Option EngineError) (lr : Option Response),
      execLoop c meth u outcomes a r le lr = execLoopOld c meth u outcomes a r le lr := by
  intro r
  induction r with
  | zero => intro a le lr; rfl
  | succ r ih =>
    intro a le lr
    rw [execLoop_succ, execLoopOld_succ]
    simp only [doSingleAttempt, hok, Bool.not_true, Bool.false_eq_true, if_false]
    cases houtcome : outcomes a with
    | transportErr msg => simp [ih]
    | response tr =>
      cases hrb : readResponseBody tr.stream tr.readFails tr.contentLength c.maxResponseSize with
      | error e => simp [hrb, ih]
      | ok triple =>
        obtain ⟨body, trunc, os⟩ := triple
        simp [hrb, ih]

/-! ## C1 — body-read errors and the retry loop -/

/-- C1 counterexample.  The claim says a body-read failure is surfaced
immediately, with no further attempts.  In the code `doSingleAttempt` returns
the read error like any other attempt error and `ExecuteRequest` retries it:
with `retryCount = 1`, a first attempt whose body read fails and a second
attempt that succeeds, the engine performs 2 attempts and returns the second
attempt's response instead of surfacing the error. -/
theorem bodyRead_not_retried_cex :
    ExecuteRequest
      { baseURL := "", defaultHeaders := [], timeout := 0, maxResponseSize := 10,
        retryCount := 1, retryDelay := 0 }
      { method := "GET", url := "http://x/y", headers := [], body := "",
        queryParams := [], timeout := 0, followRedirects := true,
        includeHeaders := false }
      (fun n =>
        if n = 0 then
          .response { statusCode := 200, contentLength := -1, stream := [1, 2, 3],
                      readFails := true, headers := [] }
        else
          .response { statusCode := 200, contentLength := -1, stream := [7],
                      readFails := false, headers := [] }) =
      (some (.ok { statusCode := 200, headers := [], body := [7],
                   truncated := false, originalSize := 0 }), 2) := rfl

/-- C1 amended: a body-read error is retried exactly like a network error —
when every attempt's body read fails, the engine performs all
`retryCount + 1` attempts and only then surfaces the body-read error. -/
theorem bodyRead_retried_until_exhaustion (c : Client) (params : RequestParams)
    (outcomes : Nat → AttemptOutcome) (u : String)
    (hb : buildRequestURL c.baseURL params = .ok u)
    (h : ∀ i, i ≤ c.retryCount →
      doSingleAttempt c params.method u (outcomes i) = .error .bodyRead) :
    ExecuteRequest c params outcomes = (some (.error .bodyRead), c.retryCount + 1) := by
  unfold ExecuteRequest
  rw [hb]
  have hall := execLoop_all_errors c params.method u outcomes (fun _ => .bodyRead)
    c.retryCount 0 none (fun i _ hi2 => h i (by omega))
  simpa using hall

/-- Witness for C1's amended theorem at a concrete input. -/
theorem bodyRead_retried_until_exhaustion_witness :
    ExecuteRequest
      { baseURL := "", defaultHeaders := [], timeout := 0, maxResponseSize := 10,
        retryCount := 1, retryDelay := 0 }
      { method := "GET", url := "http://x/y", headers := [], body := "",
        queryParams := [], timeout := 0, followRedirects := true,
        includeHeaders := false }
      (fun _ => .response { statusCode := 200, contentLength := -1, stream := [1],
                            readFails := true, headers := [] }) =
      (some (.error .bodyRead), 2) :=
  bodyRead_retried_until_exhaustion _ _ _ "http://x/y" (by rfl) (fun _ _ => by rfl)

/-! ## C2 — bounded body capture -/

/-- C2: for every successful capture, the kept body never exceeds the size
cap; at most `maxResponseSize + 1` bytes are read from the stream; the
truncation flag is set exactly when the stream held more than the cap, in
which case exactly the first `maxResponseSize` bytes are kept (and when not
truncated the whole stream is kept). -/
theorem readResponseBody_bounds (stream : List UInt8) (cl : Int) (maxSize : Nat)
    (body : List UInt8) (tr : Bool) (os : Int)
    (h : readResponseBody stream false cl maxSize = .ok (body, tr, os)) :
    body.length ≤ maxSize ∧
    (stream.take (maxSize + 1)).length ≤ maxSize + 1 ∧
    (tr = true ↔ maxSize < stream.length) ∧
    (tr = true → body = stream.take maxSize) ∧
    (tr = false → body = stream) := by
  by_cases hlen : (stream.take (maxSize + 1)).length > maxSize
  · simp only [readResponseBody, Bool.false_eq_true, if_false, if_pos hlen,
      Except.ok.injEq, Prod.mk.injEq] at h
    obtain ⟨hbody, htr, hos⟩ := h
    subst hbody htr hos
    rw [List.length_take] at hlen
    refine ⟨?_, ?_, ?_, ?_, ?_⟩
    · rw [List.take_take, List.length_take]; omega
    · rw [List.length_take]; omega
    · constructor
      · intro _; omega
      · intro _; rfl
    · intro _
      rw [List.take_take]
      congr 1
      omega
    · intro hfalse; cases hfalse
  · simp only [readResponseBody, Bool.false_eq_true, if_false, if_neg hlen,
      Except.ok.injEq, Prod.mk.injEq] at h
    obtain ⟨hbody, htr, hos⟩ := h
    subst hbody htr hos
    rw [List.length_take] at hlen
    refine ⟨?_, ?_, ?_, ?_, ?_⟩
    · rw [List.length_take]; omega
    · rw [List.length_take]; omega
    · constructor
      · intro hfalse; cases hfalse
      · intro hlt; omega
    · intro hfalse; cases hfalse
    · intro _
      exact List.take_of_length_le (by omega)

/-- Witness for C2 at a concrete input: a 3-byte stream under a 2-byte cap. -/
theorem readResponseBody_bounds_witness :
    ([0, 1] : List UInt8).length ≤ 2 ∧
    (([0, 1, 2] : List UInt8).take (2 + 1)).length ≤ 2 + 1 ∧
    (true = true ↔ 2 < ([0, 1, 2] : List UInt8).length) ∧
    (true = true → ([0, 1] : List UInt8) = ([0, 1, 2] : List UInt8).take 2) ∧
    (true = false → ([0, 1] : List UInt8) = [0, 1, 2]) :=
  readResponseBody_bounds [0, 1, 2] (-1) 2 [0, 1] true 3 (by rfl)

/-! ## C3 — status classification of the retry controller -/

/-- C3 counterexample.  The claim says a response with status `≥ 600` is
returned immediately with no further attempts.  The code's retry condition is
`StatusCode >= 500` with no upper bound, so a 600 response is retried: with
`retryCount = 1`, a first attempt answering 600 and a second answering 200,
the engine performs 2 attempts and returns the 200 response. -/
theorem status_ge600_not_immediate_cex :
    ExecuteRequest
      { baseURL := "", defaultHeaders := [], timeout := 0, maxResponseSize := 10,
        retryCount := 1, retryDelay := 0 }
      { method := "GET", url := "http://x/y", headers := [], body := "",
        queryParams := [], timeout := 0, followRedirects := true,
        includeHeaders := false }
      (fun n =>
        if n = 0 then
          .response { statusCode := 600, contentLength := -1, stream := [9],
                      readFails := false, headers := [] }
        else
          .response { statusCode := 200, contentLength := -1, stream := [7],
                      readFails := false, headers := [] }) =
      (some (.ok { statusCode := 200, headers := [], body := [7],
                   truncated := false, originalSize := 0 }), 2) := rfl

/-- C3 amended: when every attempt yields a response with status `≥ 500`
(no upper bound — statuses `≥ 600` behave like 5xx), the engine performs
exactly `retryCount + 1` attempts and returns the final attempt's response
with no error; and an attempt yielding a response with status `< 400` ends
the call at once with that response. -/
theorem executeRequest_status_policy (c : Client) (params : RequestParams)
    (outcomes : Nat → AttemptOutcome) (u : String)
    (hb : buildRequestURL c.baseURL params = .ok u) :
    (∀ resp : Nat → Response,
      (∀ i, i ≤ c.retryCount →
        doSingleAttempt c params.method u (outcomes i) = .ok (resp i) ∧
        500 ≤ (resp i).statusCode) →
      ExecuteRequest c params outcomes =
        (some (.ok (resp c.retryCount)), c.retryCount + 1)) ∧
    (∀ p : Response,
      doSingleAttempt c params.method u (outcomes 0) = .ok p →
      p.statusCode < 400 →
      ExecuteRequest c params outcomes = (some (.ok p), 1)) := by
  constructor
  · intro resp h
    unfold ExecuteRequest
    rw [hb]
    have hall := execLoop_all_5xx c params.method u outcomes resp
      c.retryCount 0 none none (fun i _ hi2 => h i (by omega))
    simpa using hall
  · intro p h hs
    unfold ExecuteRequest
    rw [hb]
    exact execLoop_first_return c params.method u outcomes c.retryCount 0 none none p h
      (by omega)

/-- Witness for C3's amended theorem: both behaviors at concrete inputs
(two 5xx attempts with `retryCount = 1`; a single 200 attempt). -/
theorem executeRequest_status_policy_witness :
    (ExecuteRequest
      { baseURL := "", defaultHeaders := [], timeout := 0, maxResponseSize := 10,
        retryCount := 1, retryDelay := 0 }
      { method := "GET", url := "http://x/y", headers := [], body := "",
        queryParams := [], timeout := 0, followRedirects := true,
        includeHeaders := false }
      (fun _ => .response { statusCode := 503, contentLength := -1, stream := [],
                            readFails := false, headers := [] }) =
      (some (.ok { statusCode := 503, headers := [], body := [],
                   truncated := false, originalSize := 0 }), 2)) ∧
    (ExecuteRequest
      { baseURL := "", defaultHeaders := [], timeout := 0, maxResponseSize := 10,
        retryCount := 1, retryDelay := 0 }
      { method := "GET", url := "http://x/y", headers := [], body := "",
        queryParams := [], timeout := 0, followRedirects := true,
        includeHeaders := false }
      (fun _ => .response { statusCode := 200, contentLength := -1, stream := [],
                            readFails := false, headers := [] }) =
      (some (.ok { statusCode := 200, headers := [], body := [],
                   truncated := false, originalSize := 0 }), 1)) :=
  ⟨(executeRequest_status_policy _ _ _ "http://x/y" (by rfl)).1
      (fun _ => { statusCode := 503, headers := [], body := [],
                  truncated := false, originalSize := 0 })
      (fun _ _ => ⟨by rfl, by show (500 : Nat) ≤ 503; decide⟩),
   (executeRequest_status_policy _ _ _ "http://x/y" (by rfl)).2
      { statusCode := 200, headers := [], body := [],
        truncated := false, originalSize := 0 }
      (by rfl) (by decide)⟩

/-! ## C4 — 4xx ends the call after one attempt -/

/-- C4: a first attempt answering a status in `[400, 500)` ends the call at
once — exactly one attempt, that response returned without error, for every
retry budget. -/
theorem status4xx_single_attempt (c : Client) (params : RequestParams)
    (outcomes : Nat → AttemptOutcome) (u : String) (p : Response)
    (hb : buildRequestURL c.baseURL params = .ok u)
    (h : doSingleAttempt c params.method u (outcomes 0) = .ok p)
    (_h4 : 400 ≤ p.statusCode) (h5 : p.statusCode < 500) :
    ExecuteRequest c params outcomes = (some (.ok p), 1) := by
  unfold ExecuteRequest
  rw [hb]
  exact execLoop_first_return c params.method u outcomes c.retryCount 0 none none p h h5

/-- Witness for C4: a 404 answer with `retryCount = 2` performs one attempt. -/
theorem status4xx_single_attempt_witness :
    ExecuteRequest
      { baseURL := "", defaultHeaders := [], timeout := 0, maxResponseSize := 10,
        retryCount := 2, retryDelay := 0 }
      { method := "GET", url := "http://x/y", headers := [], body := "",
        queryParams := [], timeout := 0, followRedirects := true,
        includeHeaders := false }
      (fun _ => .response { statusCode := 404, contentLength := -1, stream := [5],
                            readFails := false, headers := [] }) =
      (some (.ok { statusCode := 404, headers := [], body := [5],
                   truncated := false, originalSize := 0 }), 1) :=
  status4xx_single_attempt _ _ _ "http://x/y"
    { statusCode := 404, headers := [], body := [5],
      truncated := false, originalSize := 0 }
    (by rfl) (by rfl) (by decide) (by decide)

/-! ## C5 — the original-size estimate of a truncated capture -/

/-- C5: for a truncated capture, `OriginalSize` is the declared
content-length when that is positive and otherwise the number of bytes
actually read, `maxResponseSize + 1`; in both cases it is at least
`maxResponseSize`.  The well-formedness hypothesis `hwf` is the `net/http`
transport contract: when a response declares a positive `ContentLength`, its
body stream is limited to that many bytes. -/
theorem readResponseBody_originalSize (stream : List UInt8) (cl : Int)
    (maxSize : Nat) (body : List UInt8) (tr : Bool) (os : Int)
    (hwf : 0 < cl → (stream.length : Int) ≤ cl)
    (hbig : maxSize < stream.length)
    (h : readResponseBody stream false cl maxSize = .ok (body, tr, os)) :
    os = (if 0 < cl then cl else (maxSize : Int) + 1) ∧ (maxSize : Int) ≤ os := by
  have hlen : (stream.take (maxSize + 1)).length > maxSize := by
    rw [List.length_take]; omega
  simp only [readResponseBody, Bool.false_eq_true, if_false, if_pos hlen,
    Except.ok.injEq, Prod.mk.injEq] at h
  obtain ⟨hbody, htr, hos⟩ := h
  rw [List.length_take] at hlen
  by_cases hcl : 0 < cl
  · have hcl' : cl > 0 := hcl
    rw [if_pos hcl'] at hos
    have := hwf hcl
    constructor
    · rw [if_pos hcl]; omega
    · omega
  · have hcl' : ¬cl > 0 := hcl
    rw [if_neg hcl'] at hos
    rw [List.length_take] at hos
    constructor
    · rw [if_neg hcl]; omega
    · omega

/-- Witness for C5: a 4-byte stream, declared content-length 9, cap 2. -/
theorem readResponseBody_originalSize_witness :
    (9 : Int) = (if (0 : Int) < 9 then 9 else (2 : Int) + 1) ∧ (2 : Int) ≤ 9 :=
  readResponseBody_originalSize [0, 0, 0, 0] 9 2 [0, 0] true 9
    (by intro _; decide) (by decide) (by rfl)

/-! ## C8 — URL-parse failure aborts the call -/

/-- C8 counterexample.  The claim says every call whose resulting URL is not
parseable fails with a URL-parse error before any attempt.  The code only
parses the URL up front when query parameters are supplied: with no query
parameters and an unparseable URL (a control character), request construction
fails inside each attempt instead, the engine retries it, and the surfaced
error is a request-construction error after 2 attempts — not a URL-parse
error after 0. -/
theorem urlParse_failure_cex :
    ExecuteRequest
      { baseURL := "", defaultHeaders := [], timeout := 0, maxResponseSize := 10,
        retryCount := 1, retryDelay := 0 }
      { method := "GET", url := "http://x/\x01", headers := [], body := "",
        queryParams := [], timeout := 0, followRedirects := true,
        includeHeaders := false }
      (fun _ => .transportErr "unreachable") =
      (some (.error (.reqConstruction "GET" "http://x/\x01")), 2) := rfl

/-- C8 amended: when at least one query parameter is supplied and the
resolved URL does not parse, the engine fails with a URL-parse error before
any attempt is executed (zero attempts), so the error is never retried.
(Without query parameters the URL is not validated up front; an unparseable
URL instead fails request construction inside each attempt, and that failure
is retried.) -/
theorem urlParse_failure_aborts (c : Client) (params : RequestParams)
    (outcomes : Nat → AttemptOutcome)
    (hq : params.queryParams.isEmpty = false)
    (hu : urlParse (resolveURL c.baseURL params) = none) :
    ExecuteRequest c params outcomes =
      (some (.error (.urlParseErr (resolveURL c.baseURL params))), 0) := by
  unfold ExecuteRequest buildRequestURL
  simp [hq, hu]

/-- Witness for C8's amended theorem: one query parameter and a control
character in the URL yield the URL-parse error with zero attempts. -/
theorem urlParse_failure_aborts_witness :
    ExecuteRequest
      { baseURL := "", defaultHeaders := [], timeout := 0, maxResponseSize := 10,
        retryCount := 3, retryDelay := 0 }
      { method := "GET", url := "http://x/\x01", headers := [], body := "",
        queryParams := [("a", "1")], timeout := 0, followRedirects := true,
        includeHeaders := false }
      (fun _ => .transportErr "unreachable") =
      (some (.error (.urlParseErr "http://x/\x01")), 0) :=
  urlParse_failure_aborts _ _ _ (by rfl) (by rfl)

/-! ## C9 — timeout scoping across attempts -/

/-- C9 counterexample.  The claim says a retried attempt runs under a fresh
deadline.  With a 10-unit per-call timeout, a first attempt that consumes the
whole budget, and a 5-unit retry delay, attempt 1 starts at instant 15 while
the deadline it runs under is still the instant-10 deadline computed at call
start — not the fresh instant-25 deadline the claim would require, and it is
already expired. -/
theorem fresh_attempt_deadline_cex :
    attemptStart 0 5 (fun _ => 10) 1 = 15 ∧
    freshAttemptDeadline 0 5 10 (fun _ => 10) 1 = some 25 ∧
    attemptCtxDeadline 0 none 10 1 = some 10 ∧
    attemptCtxDeadline 0 none 10 1 ≠ freshAttemptDeadline 0 5 10 (fun _ => 10) 1 :=
  ⟨rfl, rfl, rfl, by decide⟩

/-- C9 amended: the per-call timeout override, when non-zero, is enforced via
one cancellable deadline computed at call start and shared by every attempt
(the deadline under which attempt `n` runs does not depend on `n`, and with
no parent deadline it is `callStart + timeout`); after an attempt that
consumed the whole timeout budget, the retried attempt starts at or after
that same deadline, i.e. under an already-expired deadline rather than a
fresh one. -/
theorem perCall_timeout_shared_deadline (callStart retryDelay timeout : Nat)
    (durations : Nat → Nat) (parentDeadline : Option Nat) (n : Nat)
    (ht : 0 < timeout) :
    attemptCtxDeadline callStart parentDeadline timeout n =
      attemptCtxDeadline callStart parentDeadline timeout 0 ∧
    attemptCtxDeadline callStart none timeout n = some (callStart + timeout) ∧
    (timeout ≤ durations 0 →
      callStart + timeout ≤ attemptStart callStart retryDelay durations 1) := by
  refine ⟨rfl, ?_, ?_⟩
  · simp [attemptCtxDeadline, requestCtxDeadline, ht]
  · intro hd
    simp only [attemptStart]
    omega

/-- Witness for C9's amended theorem at the counterexample's numbers. -/
theorem perCall_timeout_shared_deadline_witness :
    attemptCtxDeadline 0 none 10 1 = attemptCtxDeadline 0 none 10 0 ∧
    attemptCtxDeadline 0 none 10 1 = some (0 + 10) ∧
    (10 ≤ (fun _ : Nat => 10) 0 → 0 + 10 ≤ attemptStart 0 5 (fun _ => 10) 1) :=
  perCall_timeout_shared_deadline 0 5 10 (fun _ => 10) none 1 (by decide)

/-! ## C7 — header precedence -/

/-- The header map after one `Set` loop is: the last canonical binding of
the looped-over list when there is one, else whatever was there before. -/
lemma headerSetAll_eq (h : Header) (m : List (String × String)) (n : String) :
    headerSetAll h m n =
      match lookupLast (canonKeys m) n with
      | some v => some v
      | none => h n := by
  induction m generalizing h with
  | nil => rfl
  | cons kv rest ih =>
    obtain ⟨k, v⟩ := kv
    show headerSetAll (headerSet h k v) rest n = _
    rw [ih]
    have hck : canonKeys ((k, v) :: rest) = (canonicalMIMEHeaderKey k, v) :: canonKeys rest := rfl
    rw [hck]
    cases hl : lookupLast (canonKeys rest) n with
    | some w => simp [lookupLast, hl]
    | none =>
      simp only [lookupLast, hl]
      by_cases hc : canonicalMIMEHeaderKey k = n
      · simp [headerSet, hc]
      · simp [headerSet, hc, Ne.symm hc]

/-- C7: in the outgoing header set of an attempt, a name set by the per-call
headers carries the per-call value (the last binding under canonical names),
and a default header whose name the per-call headers do not touch keeps its
default value. -/
theorem perCall_header_wins (defaults perCall : List (String × String)) (n : String) :
    (∀ v, lookupLast (canonKeys perCall) n = some v →
      attemptHeaders defaults perCall n = some v) ∧
    (lookupLast (canonKeys perCall) n = none →
      ∀ w, lookupLast (canonKeys defaults) n = some w →
        attemptHeaders defaults perCall n = some w) := by
  unfold attemptHeaders
  rw [headerSetAll_eq, headerSetAll_eq]
  constructor
  · intro v hv
    simp [hv]
  · intro hnone w hw
    simp [hnone, hw]

/-- Witness for C7: a per-call `Content-Type` (set with different
capitalization) beats the default one, and the untouched default `X-Keep`
survives. -/
theorem perCall_header_wins_witness :
    (attemptHeaders [("content-type", "text/plain"), ("X-Keep", "yes")]
        [("Content-Type", "application/json")] "Content-Type" =
      some "application/json") ∧
    (attemptHeaders [("content-type", "text/plain"), ("X-Keep", "yes")]
        [("Content-Type", "application/json")] "X-Keep" = some "yes") :=
  ⟨(perCall_header_wins _ _ "Content-Type").1 "application/json" (by rfl),
   (perCall_header_wins _ _ "X-Keep").2 (by rfl) "yes" (by rfl)⟩

/-! ## C10 — the refactored engine against the monolith -/

/-- C10: for every configuration, request and transport-outcome sequence,
the refactored engine returns exactly the same response-or-error outcome as
the earlier monolithic `ExecuteRequest`.  (The only control-flow difference —
the monolith aborts on a request-construction failure while the refactored
loop retries it — cannot change the returned value, because construction is
deterministic and every retry fails identically.) -/
theorem executeRequest_refactor_equiv (c : Client) (params : RequestParams)
    (outcomes : Nat → AttemptOutcome) :
    (ExecuteRequest c params outcomes).1 = (ExecuteRequestOld c params outcomes).1 := by
  unfold ExecuteRequest ExecuteRequestOld
  cases hb : buildRequestURL c.baseURL params with
  | error e => rfl
  | ok u =>
    dsimp only
    cases hok : newRequestOk params.method u with
    | true =>
      rw [execLoop_eq_old c params.method u outcomes hok]
    | false =>
      rw [execLoop_construct_fail c params.method u outcomes hok]
      rw [execLoopOld_succ]
      simp [hok]

/-! ## C6 — URL construction against the spec's wording -/

/-- A key that appears nowhere in the list has no last binding. -/
lemma lookupLast_of_not_mem (m : List (String × String)) (k : String)
    (h : k ∉ m.map Prod.fst) : lookupLast m k = none := by
  induction m with
  | nil => rfl
  | cons kv rest ih =>
    obtain ⟨k', v⟩ := kv
    simp only [List.map_cons, List.mem_cons] at h
    push_neg at h
    show (match lookupLast rest k with
          | some w => some w
          | none => if k' = k then some v else none) = none
    rw [ih h.2]
    exact if_neg (fun hh => h.1 hh.symm)

/-- Unfolding `lookupLast` at a cons cell. -/
lemma lookupLast_cons (k' v' : String) (rest : List (String × String)) (k : String) :
    lookupLast ((k', v') :: rest) k =
      match lookupLast rest k with
      | some w => some w
      | none => if k' = k then some v' else none := rfl

/-- Folding `url.Values.Set` over a list of parameters with distinct names
(a Go map) equals the bulk override the spec describes. -/
lemma foldl_valuesSet_override (supplied : List (String × String)) :
    ∀ existing : Values, (supplied.map Prod.fst).Nodup →
      supplied.foldl (fun q kv => valuesSet q kv.1 kv.2) existing =
        overrideValues existing supplied := by
  induction supplied with
  | nil =>
    intro existing _
    simp [overrideValues, lookupLast]
  | cons kv rest ih =>
    obtain ⟨k, v⟩ := kv
    intro existing hnd
    simp only [List.map_cons, List.nodup_cons] at hnd
    obtain ⟨hkrest, hndrest⟩ := hnd
    have hlast : lookupLast rest k = none :=
      lookupLast_of_not_mem rest k (by simpa using hkrest)
    show rest.foldl _ (valuesSet existing k v) = _
    rw [ih (valuesSet existing k v) hndrest]
    have hfcons : ∀ p : String × List String, p.1 ≠ k →
        (match lookupLast ((k, v) :: rest) p.1 with
         | some w => (p.1, [w])
         | none => p) =
        (match lookupLast rest p.1 with
         | some w => (p.1, [w])
         | none => p) := by
      intro p hpk
      rw [lookupLast_cons]
      cases hl : lookupLast rest p.1 with
      | some w => simp
      | none =>
        have hne : ¬(k = p.1) := fun hh => hpk hh.symm
        simp [hne]
    have hrestk : ∀ kv' : String × String, kv' ∈ rest → ¬(k = kv'.1) := by
      intro kv' hkv hh
      exact hkrest (by simpa [← hh] using List.mem_map_of_mem Prod.fst hkv)
    cases hk : existing.any (fun p => decide (p.1 = k)) with
    | true =>
      have hset : valuesSet existing k v =
          existing.map (fun p => if p.1 = k then (k, [v]) else p) := by
        unfold valuesSet
        rw [hk]
        simp
      rw [hset]
      have hg1 : ∀ p : String × List String,
          ((if p.1 = k then (k, [v]) else p) : String × List String).1 = p.1 := by
        intro p
        by_cases hpk : p.1 = k <;> simp [hpk]
      unfold overrideValues
      rw [List.map_map]
      have hfilteq :
          List.filter (fun kv' =>
            !(existing.map (fun p => if p.1 = k then (k, [v]) else p)).any
              (fun p => decide (p.1 = kv'.1))) rest =
          List.filter (fun kv' =>
            !existing.any (fun p => decide (p.1 = kv'.1))) rest := by
        apply List.filter_congr
        intro kv' _
        rw [List.any_map]
        congr 2
        funext p
        simp [Function.comp, hg1 p]
      have hmapeq :
          existing.map ((fun p => match lookupLast rest p.1 with
                                  | some w => (p.1, [w])
                                  | none => p) ∘
                        (fun p => if p.1 = k then (k, [v]) else p)) =
          existing.map (fun p => match lookupLast ((k, v) :: rest) p.1 with
                                 | some w => (p.1, [w])
                                 | none => p) := by
        apply List.map_congr_left
        intro p _
        by_cases hpk : p.1 = k
        · obtain ⟨pk, pv⟩ := p
          have hpk' : pk = k := hpk
          subst hpk'
          simp [Function.comp, lookupLast_cons, hlast]
        · simp only [Function.comp_apply, if_neg hpk]
          exact (hfcons p hpk).symm
      rw [hmapeq, hfilteq, List.filter_cons_of_neg (by simp [hk])]
    | false =>
      have hset : valuesSet existing k v = existing ++ [(k, [v])] := by
        unfold valuesSet
        rw [hk]
        simp
      rw [hset]
      have hnotin : ∀ p, p ∈ existing → ¬(p.1 = k) := by
        intro p hp hpk
        have hany : existing.any (fun p => decide (p.1 = k)) = true :=
          List.any_eq_true.mpr ⟨p, hp, by simp [hpk]⟩
        rw [hk] at hany
        cases hany
      unfold overrideValues
      rw [List.map_append, List.filter_cons_of_pos (by simp [hk])]
      have hsingle : ([(k, [v])] : Values).map
          (fun p => match lookupLast rest p.1 with
                    | some w => (p.1, [w])
                    | none => p) = [(k, [v])] := by
        simp [hlast]
      rw [hsingle, List.append_assoc, List.singleton_append, List.map_cons]
      have hmapeq :
          existing.map (fun p => match lookupLast rest p.1 with
                                 | some w => (p.1, [w])
                                 | none => p) =
          existing.map (fun p => match lookupLast ((k, v) :: rest) p.1 with
                                 | some w => (p.1, [w])
                                 | none => p) := by
        apply List.map_congr_left
        intro p hp
        exact (hfcons p (hnotin p hp)).symm
      have hfilteq :
          List.filter (fun kv' =>
            !(existing ++ [(k, [v])]).any (fun p => decide (p.1 = kv'.1))) rest =
          List.filter (fun kv' =>
            !existing.any (fun p => decide (p.1 = kv'.1))) rest := by
        apply List.filter_congr
        intro kv' hkv
        rw [List.any_append]
        simp [hrestk kv' hkv]
      rw [hmapeq, hfilteq]

/-- `charListLe` is total. -/
lemma charListLe_total : ∀ as bs, charListLe as bs = true ∨ charListLe bs as = true
  | [], _ => .inl rfl
  | _ :: _, [] => .inr rfl
  | a :: as, b :: bs => by
    simp only [charListLe]
    rcases Nat.lt_trichotomy a.toNat b.toNat with h | h | h
    · left
      simp [h]
    · rw [if_neg (by omega), if_neg (by omega), if_neg (by omega), if_neg (by omega)]
      exact charListLe_total as bs
    · right
      simp [h]

/-- `charListLe` is transitive. -/
lemma charListLe_trans : ∀ as bs cs, charListLe as bs = true → charListLe bs cs = true →
    charListLe as cs = true
  | [], _, cs, _, _ => rfl
  | a :: as, [], _, hab, _ => by simp [charListLe] at hab
  | _ :: _, _ :: _, [], _, hbc => by simp [charListLe] at hbc
  | a :: as, b :: bs, c :: cs, hab, hbc => by
    simp only [charListLe] at hab hbc ⊢
    by_cases h1 : a.toNat < b.toNat
    · by_cases h3 : b.toNat < c.toNat
      · simp [show a.toNat < c.toNat by omega]
      · by_cases h4 : c.toNat < b.toNat
        · rw [if_neg h3, if_pos h4] at hbc
          cases hbc
        · simp [show a.toNat < c.toNat by omega]
    · by_cases h2 : b.toNat < a.toNat
      · rw [if_neg h1, if_pos h2] at hab
        cases hab
      · rw [if_neg h1, if_neg h2] at hab
        by_cases h3 : b.toNat < c.toNat
        · simp [show a.toNat < c.toNat by omega]
        · by_cases h4 : c.toNat < b.toNat
          · rw [if_neg h3, if_pos h4] at hbc
            cases hbc
          · rw [if_neg h3, if_neg h4] at hbc
            rw [if_neg (by omega), if_neg (by omega)]
            exact charListLe_trans as bs cs hab hbc

/-- Everything in an ordered insertion is the inserted entry or an original
one. -/
lemma mem_orderedInsertKey (p : String × List String) :
    ∀ l q, q ∈ orderedInsertKey p l → q = p ∨ q ∈ l := by
  intro l
  induction l with
  | nil =>
    intro q hq
    simp only [orderedInsertKey, List.mem_singleton] at hq
    exact .inl hq
  | cons r rs ih =>
    intro q hq
    simp only [orderedInsertKey] at hq
    by_cases hle : strLeB p.1 r.1
    · rw [if_pos hle] at hq
      rcases List.mem_cons.mp hq with h | h
      · exact .inl h
      · exact .inr h
    · rw [if_neg hle] at hq
      rcases List.mem_cons.mp hq with h | h
      · exact .inr (h ▸ List.mem_cons_self r rs)
      · rcases ih q h with h' | h'
        · exact .inl h'
        · exact .inr (List.mem_cons_of_mem r h')

/-- Ordered insertion preserves key-sortedness. -/
lemma pairwise_orderedInsertKey (p : String × List String) :
    ∀ l, l.Pairwise keyLe → (orderedInsertKey p l).Pairwise keyLe := by
  intro l
  induction l with
  | nil =>
    intro _
    simp [orderedInsertKey, keyLe]
  | cons r rs ih =>
    intro hpw
    rw [List.pairwise_cons] at hpw
    obtain ⟨hr, hrs⟩ := hpw
    simp only [orderedInsertKey]
    by_cases hle : strLeB p.1 r.1
    · rw [if_pos hle]
      rw [List.pairwise_cons]
      constructor
      · intro q hq
        rcases List.mem_cons.mp hq with h | h
        · exact h ▸ hle
        · exact charListLe_trans p.1.data r.1.data q.1.data hle (hr q h)
      · rw [List.pairwise_cons]
        exact ⟨hr, hrs⟩
    · rw [if_neg hle]
      rw [List.pairwise_cons]
      constructor
      · intro q hq
        rcases mem_orderedInsertKey p rs q hq with h | h
        · subst h
          rcases charListLe_total q.1.data r.1.data with h' | h'
          · exact absurd h' hle
          · exact h'
        · exact hr q h
      · exact ih hrs

/-- The sort inside `valuesEncode` really sorts: its output is pairwise
ordered by key. -/
lemma sortValues_pairwise : ∀ vs : Values, (sortValues vs).Pairwise keyLe := by
  intro vs
  induction vs with
  | nil => simp [sortValues]
  | cons p ps ih => exact pairwise_orderedInsertKey p (sortValues ps) ih

/-- The head of a `dropWhile` residue fails the predicate. -/
lemma head_dropWhile_ne (p : Char → Bool) :
    ∀ l : List Char, ∀ a, (l.dropWhile p).head? = some a → p a = false := by
  intro l
  induction l with
  | nil => intro a h; cases h
  | cons c cs ih =>
    intro a h
    by_cases hc : p c
    · rw [List.dropWhile_cons_of_pos hc] at h
      exact ih a h
    · rw [List.dropWhile_cons_of_neg hc] at h
      simp only [List.head?_cons, Option.some.injEq] at h
      subst h
      simpa using hc

/-- `strings.TrimRight(s, "/")` leaves no trailing slash: its last character
is never `/`, so gluing a path that begins with `/` leaves exactly one slash
contributed by the path at the junction. -/
lemma trimRightSlashes_no_trailing (s : String) (ch : Char)
    (h : (trimRightSlashes s).data.getLast? = some ch) : ch ≠ '/' := by
  unfold trimRightSlashes at h
  rw [show (String.mk ((s.data.reverse.dropWhile (· = '/')).reverse)).data =
      (s.data.reverse.dropWhile (· = '/')).reverse from rfl] at h
  rw [List.getLast?_reverse] at h
  have hne := head_dropWhile_ne (fun c => decide (c = '/')) s.data.reverse ch h
  simpa using hne

/-- C6: the URL the engine builds is exactly the spec's reference
construction — a URL starting with `/` is appended to the base URL with its
trailing slashes removed (so the junction carries exactly the path's own
leading slash), any other URL is used verbatim, supplied parameters
overwrite same-named query parameters (the last binding winning on a Go
map's unique keys), and the re-serialized query is sorted by parameter
name. -/
theorem buildRequestURL_matches_spec (baseURL : String) (params : RequestParams)
    (hnd : (params.queryParams.map Prod.fst).Nodup) :
    buildRequestURL baseURL params = buildRequestURLSpec baseURL params ∧
    (∀ pu : ParsedURL,
      (sortValues (mergedQuery pu params.queryParams)).Pairwise keyLe) ∧
    (startsWithSlash params.url = true → baseURL ≠ "" →
      resolveURL baseURL params = trimRightSlashes baseURL ++ params.url ∧
      ∀ ch, (trimRightSlashes baseURL).data.getLast? = some ch → ch ≠ '/') ∧
    (startsWithSlash params.url = false ∨ baseURL = "" →
      resolveURL baseURL params = params.url) := by
  refine ⟨?_, ?_, ?_, ?_⟩
  · unfold buildRequestURL buildRequestURLSpec
    cases hq : params.queryParams.isEmpty with
    | true => rfl
    | false =>
      simp only [Bool.false_eq_true, if_false]
      cases hu : urlParse (resolveURL baseURL params) with
      | none => rfl
      | some pu =>
        unfold mergedQuery
        dsimp only
        rw [foldl_valuesSet_override params.queryParams (valuesOf pu.rawQuery) hnd]
  · intro pu
    exact sortValues_pairwise (mergedQuery pu params.queryParams)
  · intro h1 h2
    refine ⟨?_, fun ch hch => trimRightSlashes_no_trailing baseURL ch hch⟩
    unfold resolveURL
    simp [h1, h2]
  · intro hcase
    unfold resolveURL
    rcases hcase with h | h <;> simp [h]

/-- Witness for C6 at a concrete input: base URL with a trailing slash,
relative path, a query parameter that overwrites an existing one and one
that is new. -/
theorem buildRequestURL_matches_spec_witness :
    buildRequestURL "http://api.example.com/"
      { method := "GET", url := "/users?a=0&c=3", headers := [], body := "",
        queryParams := [("a", "1"), ("b", "2")], timeout := 0,
        followRedirects := true, includeHeaders := false } =
      buildRequestURLSpec "http://api.example.com/"
      { method := "GET", url := "/users?a=0&c=3", headers := [], body := "",
        queryParams := [("a", "1"), ("b", "2")], timeout := 0,
        followRedirects := true, includeHeaders := false } ∧
    (sortValues (mergedQuery ⟨"http://api.example.com/users", "a=0&c=3"⟩
      [("a", "1"), ("b", "2")])).Pairwise keyLe ∧
    resolveURL "http://api.example.com/"
      { method := "GET", url := "/users?a=0&c=3", headers := [], body := "",
        queryParams := [("a", "1"), ("b", "2")], timeout := 0,
        followRedirects := true, includeHeaders := false } =
      trimRightSlashes "http://api.example.com/" ++ "/users?a=0&c=3" :=
  ⟨(buildRequestURL_matches_spec "http://api.example.com/"
      { method := "GET", url := "/users?a=0&c=3", headers := [], body := "",
        queryParams := [("a", "1"), ("b", "2")], timeout := 0,
        followRedirects := true, includeHeaders := false } (by decide)).1,
   (buildRequestURL_matches_spec "http://api.example.com/"
      { method := "GET", url := "/users?a=0&c=3", headers := [], body := "",
        queryParams := [("a", "1"), ("b", "2")], timeout := 0,
        followRedirects := true, includeHeaders := false } (by decide)).2.1
     ⟨"http://api.example.com/users", "a=0&c=3"⟩,
   ((buildRequestURL_matches_spec "http://api.example.com/"
      { method := "GET", url := "/users?a=0&c=3", headers := [], body := "",
        queryParams := [("a", "1"), ("b", "2")], timeout := 0,
        followRedirects := true, includeHeaders := false } (by decide)).2.2.1
     (by rfl) (by decide)).1⟩

end RestApiMcp
